import Mathlib

/-!
# A verification model of the smolcert certificate library

This file embeds the certificate data model, the canonical CBOR codec and
the trust-validation engine of `certificates.go` into Lean, and proves the
key behavioural properties: the round-trip law of the codec, the time-window
and signature checks of single-certificate validation, the pool lookup and
self-check of `CertPool.Validate`, and the chain reconstruction performed by
`CertPool.ValidateBundle`.

Modelling conventions:
* Go byte slices (`[]byte`, `ed25519.PublicKey`) are `Option (List Nat)`,
  with `none` standing for a nil slice (the codec encodes a nil slice as
  CBOR null, an allocated slice as a byte string, so the distinction is
  observable on the wire).
* Go strings are their byte sequences, `List Nat`.
* `*Time` pointers are `Option Int` (`none` = nil pointer), `*Validity` is
  `Option Validity`.
* The wall clock `time.Now()` is an explicit parameter `now`, measured in
  nanoseconds since the epoch; a `Time` value `t` (seconds) corresponds to
  the instant `stdTime t = t * 1000000000` as produced by `Time.StdTime`.
* `ed25519.Verify` is an abstract parameter
  `verify : List Nat → List Nat → List Nat → Bool` taking the public key,
  the message and the signature (a nil slice reads as the empty slice).
* A Go runtime panic (nil-pointer dereference) is modelled as the `none`
  result of an `Option`-valued function.
-/

namespace Smolcert

/-- `Extension` from `certificates.go`: `oid uint64`, `critical bool`,
`value []byte` (nil slice = `none`). The struct carries the `toarray` codec
tag, so it encodes as a three-element CBOR array. -/
structure Extension where
  oid : Nat
  critical : Bool
  value : Option (List Nat)
  deriving DecidableEq, Repr

/-- `Validity` from `certificates.go`: the two optional bound timestamps
`NotBefore`/`NotAfter`, each a `*Time` (`none` = nil pointer), in seconds
since the epoch. Encodes as a two-element CBOR array (`toarray`). -/
structure Validity where
  notBefore : Option Int
  notAfter : Option Int
  deriving DecidableEq, Repr

/-- `Certificate` from `certificates.go`. Field order matters: with the
`toarray` codec tag the certificate encodes as a seven-element CBOR array in
declaration order `serial_number, issuer, validity, subject, public_key,
extensions, signature`. `validity` is a `*Validity` pointer (`none` = nil);
the byte-slice fields are `none` when the Go slice is nil. -/
structure Certificate where
  serialNumber : Nat
  issuer : List Nat
  validity : Option Validity
  subject : List Nat
  pubKey : Option (List Nat)
  extensions : Option (List Extension)
  signature : Option (List Nat)
  deriving DecidableEq, Repr

/-- `Time.IsZero` from `certificates.go`: `t == nil || int64(*t) == 0`. -/
def timeIsZero : Option Int → Bool
  | none => true
  | some t => t == 0

/-- `Time.StdTime` from `certificates.go` (`time.Unix(int64(*t), 0)`),
expressed in nanoseconds since the epoch. -/
def stdTime (t : Int) : Int := t * 1000000000

/-- `Certificate.Copy` from `certificates.go`. The Go method reads
`c.Validity.NotBefore` and `c.Validity.NotAfter` without a nil check, so a
certificate with absent validity makes it panic with a nil-pointer
dereference — modelled by the `none` result. The byte-slice fields are
rebuilt with `append([]byte{}, s...)`, which turns a nil slice into an
allocated empty one, hence the `Option.getD` below. -/
def Certificate.copy (c : Certificate) : Option Certificate :=
  match c.validity with
  | none => none
  | some v =>
    some { serialNumber := c.serialNumber
           issuer := c.issuer
           validity := some { notBefore := v.notBefore, notAfter := v.notAfter }
           subject := c.subject
           pubKey := some (c.pubKey.getD [])
           extensions := some (c.extensions.getD [])
           signature := some (c.signature.getD []) }

/-! ## The canonical CBOR codec

`Serialize`/`Parse` delegate to the `ugorji/go` codec with a `CborHandle`
in canonical mode. For the shapes occurring here this is plain RFC 7049
CBOR with definite lengths and minimal-width integer heads: a struct with
the `toarray` tag becomes a definite-length array of all its fields in
declaration order (`omitempty` is not honoured in array mode, a nil pointer
or nil slice in a field becomes CBOR null `0xf6`), `uint64` becomes a major
type 0 item, `int64` a major type 0/1 item, `string` a major type 3 item,
`[]byte` a major type 2 item and a slice of structs a major type 4 array. -/

/-- The `k` big-endian bytes of `n` (most significant first). -/
def toBytesBE : Nat → Nat → List Nat
  | 0, _ => []
  | k + 1, n => (n / 2 ^ (8 * k)) % 256 :: toBytesBE k (n % 2 ^ (8 * k))

/-- CBOR head: major type `m` with argument `n`, using the shortest form. -/
def encodeHead (m n : Nat) : List Nat :=
  if n < 24 then [32 * m + n]
  else if n < 2 ^ 8 then (32 * m + 24) :: toBytesBE 1 n
  else if n < 2 ^ 16 then (32 * m + 25) :: toBytesBE 2 n
  else if n < 2 ^ 32 then (32 * m + 26) :: toBytesBE 4 n
  else (32 * m + 27) :: toBytesBE 8 n

/-- CBOR encoding of an `int64` (`Time`): major type 0 for `i ≥ 0`,
major type 1 with argument `-1 - i` otherwise. -/
def encodeInt (i : Int) : List Nat :=
  if 0 ≤ i then encodeHead 0 i.toNat else encodeHead 1 (-1 - i).toNat

/-- CBOR encoding of a Go `string` (major type 3, text string). -/
def encodeText (s : List Nat) : List Nat := encodeHead 3 s.length ++ s

/-- CBOR encoding of a Go `[]byte`: null for a nil slice, a major type 2
byte string otherwise. -/
def encodeOptBytes : Option (List Nat) → List Nat
  | none => [246]
  | some bs => encodeHead 2 bs.length ++ bs

/-- CBOR encoding of a `*Time` field inside `Validity`: null for a nil
pointer, an integer otherwise. -/
def encodeOptTime : Option Int → List Nat
  | none => [246]
  | some t => encodeInt t

/-- CBOR encoding of the `Validity` struct (`toarray`: two-element array). -/
def encodeValidity (v : Validity) : List Nat :=
  encodeHead 4 2 ++ encodeOptTime v.notBefore ++ encodeOptTime v.notAfter

/-- CBOR encoding of the `*Validity` field: null for a nil pointer. -/
def encodeOptValidity : Option Validity → List Nat
  | none => [246]
  | some v => encodeValidity v

/-- CBOR encoding of a Go `bool` (`0xf5` = true, `0xf4` = false). -/
def encodeBool (b : Bool) : List Nat := if b then [245] else [244]

/-- CBOR encoding of an `Extension` (`toarray`: three-element array). -/
def encodeExtension (e : Extension) : List Nat :=
  encodeHead 4 3 ++ encodeHead 0 e.oid ++ encodeBool e.critical ++ encodeOptBytes e.value

/-- CBOR encoding of the `[]Extension` field: null for a nil slice, a
definite-length array otherwise. -/
def encodeOptExtensions : Option (List Extension) → List Nat
  | none => [246]
  | some es => encodeHead 4 es.length ++ es.flatMap encodeExtension

/-- `Serialize`/`Certificate.Bytes` from `certificates.go`: the canonical
CBOR encoding of the certificate, a seven-element array of its fields in
declaration order. -/
def encodeCert (c : Certificate) : List Nat :=
  encodeHead 4 7 ++ encodeHead 0 c.serialNumber ++ encodeText c.issuer
    ++ encodeOptValidity c.validity ++ encodeText c.subject
    ++ encodeOptBytes c.pubKey ++ encodeOptExtensions c.extensions
    ++ encodeOptBytes c.signature

/-- `Certificate.Bytes` from `certificates.go`; serialization of the
in-memory values in this model never fails. -/
def Certificate.bytes (c : Certificate) : List Nat := encodeCert c

/-- Read `k` bytes big-endian, accumulating into `acc`. -/
def readBytesBE : Nat → Nat → List Nat → Option (Nat × List Nat)
  | acc, 0, l => some (acc, l)
  | _, _ + 1, [] => none
  | acc, k + 1, b :: l => readBytesBE (acc * 256 + b) k l

/-- Decode a CBOR head: major type, argument, remaining bytes. -/
def decodeHead : List Nat → Option (Nat × Nat × List Nat)
  | [] => none
  | b :: l =>
    let m := b / 32
    let a := b % 32
    if a < 24 then some (m, a, l)
    else if a = 24 then (readBytesBE 0 1 l).map fun p => (m, p.1, p.2)
    else if a = 25 then (readBytesBE 0 2 l).map fun p => (m, p.1, p.2)
    else if a = 26 then (readBytesBE 0 4 l).map fun p => (m, p.1, p.2)
    else if a = 27 then (readBytesBE 0 8 l).map fun p => (m, p.1, p.2)
    else none

/-- Decode a CBOR head, requiring major type `m` and argument `k`. -/
def expectHead (m k : Nat) (l : List Nat) : Option (List Nat) :=
  match decodeHead l with
  | some (m', k', r) => if m' = m ∧ k' = k then some r else none
  | none => none

/-- Decode an unsigned integer (major type 0). -/
def decodeUInt (l : List Nat) : Option (Nat × List Nat) :=
  match decodeHead l with
  | some (0, n, r) => some (n, r)
  | _ => none

/-- Decode an `int64` (major type 0 or 1). -/
def decodeInt (l : List Nat) : Option (Int × List Nat) :=
  match decodeHead l with
  | some (0, n, r) => some ((n : Int), r)
  | some (1, n, r) => some (-1 - (n : Int), r)
  | _ => none

/-- Decode a text string (major type 3). -/
def decodeText (l : List Nat) : Option (List Nat × List Nat) :=
  match decodeHead l with
  | some (3, n, r) => if n ≤ r.length then some (r.take n, r.drop n) else none
  | _ => none

/-- Decode a byte string (major type 2). -/
def decodeBytesStr (l : List Nat) : Option (List Nat × List Nat) :=
  match decodeHead l with
  | some (2, n, r) => if n ≤ r.length then some (r.take n, r.drop n) else none
  | _ => none

/-- Decode a `[]byte` field: null gives a nil slice. -/
def decodeOptBytes (l : List Nat) : Option (Option (List Nat) × List Nat) :=
  match l with
  | [] => none
  | b :: r =>
    if b = 246 then some (none, r)
    else (decodeBytesStr (b :: r)).map fun p => (some p.1, p.2)

/-- Decode a `*Time` field: null gives a nil pointer. -/
def decodeOptTime (l : List Nat) : Option (Option Int × List Nat) :=
  match l with
  | [] => none
  | b :: r =>
    if b = 246 then some (none, r)
    else (decodeInt (b :: r)).map fun p => (some p.1, p.2)

/-- Decode a `Validity` struct (two-element array). -/
def decodeValidity (l : List Nat) : Option (Validity × List Nat) := do
  let r0 ← expectHead 4 2 l
  let (nb, r1) ← decodeOptTime r0
  let (na, r2) ← decodeOptTime r1
  some (⟨nb, na⟩, r2)

/-- Decode a `*Validity` field: null gives a nil pointer. -/
def decodeOptValidity (l : List Nat) : Option (Option Validity × List Nat) :=
  match l with
  | [] => none
  | b :: r =>
    if b = 246 then some (none, r)
    else (decodeValidity (b :: r)).map fun p => (some p.1, p.2)

/-- Decode a `bool`. -/
def decodeBool (l : List Nat) : Option (Bool × List Nat) :=
  match l with
  | [] => none
  | b :: r =>
    if b = 245 then some (true, r)
    else if b = 244 then some (false, r)
    else none

/-- Decode an `Extension` (three-element array). -/
def decodeExtension (l : List Nat) : Option (Extension × List Nat) := do
  let r0 ← expectHead 4 3 l
  let (oid, r1) ← decodeUInt r0
  let (crit, r2) ← decodeBool r1
  let (val, r3) ← decodeOptBytes r2
  some (⟨oid, crit, val⟩, r3)

/-- Decode `k` consecutive extensions. -/
def decodeExtList : Nat → List Nat → Option (List Extension × List Nat)
  | 0, l => some ([], l)
  | k + 1, l => do
    let (e, r1) ← decodeExtension l
    let (es, r2) ← decodeExtList k r1
    some (e :: es, r2)

/-- Decode the `[]Extension` field: null gives a nil slice. -/
def decodeOptExtensions (l : List Nat) : Option (Option (List Extension) × List Nat) :=
  match l with
  | [] => none
  | b :: r =>
    if b = 246 then some (none, r)
    else
      match decodeHead (b :: r) with
      | some (4, k, r1) => (decodeExtList k r1).map fun p => (some p.1, p.2)
      | _ => none

/-- Decode a `Certificate` (seven-element array of its fields in order). -/
def decodeCert (l : List Nat) : Option (Certificate × List Nat) := do
  let r0 ← expectHead 4 7 l
  let (serial, r1) ← decodeUInt r0
  let (issuer, r2) ← decodeText r1
  let (validity, r3) ← decodeOptValidity r2
  let (subject, r4) ← decodeText r3
  let (pk, r5) ← decodeOptBytes r4
  let (exts, r6) ← decodeOptExtensions r5
  let (sig, r7) ← decodeOptBytes r6
  some (⟨serial, issuer, validity, subject, pk, exts, sig⟩, r7)

/-- `Parse` from `certificates.go`: decode one certificate from the front of
the stream (`codec.Decoder.Decode` reads a single CBOR item and leaves any
trailing bytes unread). -/
def Parse (l : List Nat) : Option Certificate := (decodeCert l).map Prod.fst

/-! ## Well-formedness

The Go struct constrains its fields by type: `SerialNumber` and `OID` are
`uint64`, the `Time` bounds are `int64`, and every Go slice or string has a
length below `2 ^ 64`. These bounds are what the round-trip law needs. -/

/-- An `int64`-representable timestamp. -/
def timeWF (t : Option Int) : Bool :=
  match t with
  | none => true
  | some i => decide (-(2 ^ 63) ≤ i) && decide (i < 2 ^ 63)

/-- Well-formedness of an `Extension`: `uint64` OID, slice length bound. -/
def extWF (e : Extension) : Bool :=
  decide (e.oid < 2 ^ 64) && decide ((e.value.getD []).length < 2 ^ 64)

/-- Well-formedness of a `Certificate`: every field fits its Go type. -/
def certWF (c : Certificate) : Bool :=
  decide (c.serialNumber < 2 ^ 64) &&
  decide (c.issuer.length < 2 ^ 64) &&
  (match c.validity with
   | none => true
   | some v => timeWF v.notBefore && timeWF v.notAfter) &&
  decide (c.subject.length < 2 ^ 64) &&
  decide ((c.pubKey.getD []).length < 2 ^ 64) &&
  decide ((c.extensions.getD []).length < 2 ^ 64) &&
  (c.extensions.getD []).all extWF &&
  decide ((c.signature.getD []).length < 2 ^ 64)

/-! ## The validation engine

Each `errors.New` message of `certificates.go` becomes a constructor of
`CertError`; the two messages built by string concatenation from an inner
error keep that inner error as an argument. A Go panic is the `none` result
of the surrounding `Option`. -/

/-- The error values produced by the validation functions of
`certificates.go`, one constructor per `errors.New` call site. -/
inductive CertError where
  /-- "certificate can't be valid yet" -/
  | notYetValid
  /-- "certificate is not valid anymore" -/
  | expired
  /-- "Failed to serialize certificate for validation" -/
  | encodeFailed
  /-- "Signature validation failed" -/
  | badSignature
  /-- "certificate is not signed by a known issuer" -/
  | unknownIssuer
  /-- "Error validating issuing root certificate: " + inner -/
  | issuerInvalid (inner : CertError)
  /-- "Can't find non-intermediate certificate in certificate chain" -/
  | noLeaf
  /-- "Validation error in chain of intermediate certificates" -/
  | brokenChain
  /-- "No issuer for the client certificate was found in the intermediate
  certificates: " + inner -/
  | noIssuerForClient (inner : CertError)
  /-- "The intermediate chain is self signed and not signed by one of the
  root certs of this pool" -/
  | noTrustAnchor
  deriving DecidableEq, Repr

/-- The signature primitive `ed25519.Verify (pubKey, message, sig)`,
abstracted: the model quantifies over it. -/
def VerifyFn : Type := List Nat → List Nat → List Nat → Bool

/-- The body of `validateCertificate` after the `Copy` call: the two
time-window checks, then signature verification over the encoding of the
copy with its `Signature` field set to nil. `cert` is the copy, so its
`validity` is necessarily present; an absent one trivially passes the time
checks here because `timeIsZero none = true`. -/
def validateBody (now : Int) (verify : VerifyFn) (cert : Certificate)
    (pubKey : List Nat) : Except CertError Unit :=
  let nb := (cert.validity.map Validity.notBefore).getD none
  let na := (cert.validity.map Validity.notAfter).getD none
  if ¬ timeIsZero nb ∧ now < stdTime (nb.getD 0) then .error .notYetValid
  else if ¬ timeIsZero na ∧ stdTime (na.getD 0) < now then .error .expired
  else
    let sig := cert.signature
    let certBytes := encodeCert { cert with signature := none }
    if ¬ verify pubKey certBytes (sig.getD []) then .error .badSignature
    else .ok ()

/-- `validateCertificate` from `certificates.go`: copy the certificate
(panicking — `none` — when its validity is absent, see
`Certificate.copy`), check the time window against `now`, then verify the
detached signature over the canonical encoding of the signature-cleared
copy. -/
def validateCertificate (now : Int) (verify : VerifyFn) (origCert : Certificate)
    (pubKey : List Nat) : Option (Except CertError Unit) :=
  match origCert.copy with
  | none => none
  | some cert => some (validateBody now verify cert pubKey)

/-- State-passing embedding of `validateCertificate`: the caller's
certificate is threaded as explicit state. The Go function's only
assignment, `cert.Signature = nil`, targets the struct freshly allocated by
`Copy` (and `validateBody` applies it there as a functional update), so the
threaded caller state passes through unchanged; on the panic path the
caller's certificate is likewise untouched. The first component is the
returned error, the second the caller's certificate after the call. -/
def validateCertificateS (now : Int) (verify : VerifyFn) (pubKey : List Nat)
    (origCert : Certificate) : Option (Except CertError Unit) × Certificate :=
  match origCert.copy with
  | none => (none, origCert)
  | some cert => (some (validateBody now verify cert pubKey), origCert)

/-- `CertPool` from `certificates.go`: a `map[string]*Certificate`,
modelled as the insertion sequence of (subject, certificate) pairs. -/
def CertPool : Type := List (List Nat × Certificate)

/-- Go map lookup over the insertion sequence: the last insertion for a
key wins. -/
def mapLookup (m : List (List Nat × Certificate)) (k : List Nat) : Option Certificate :=
  m.foldl (fun acc e => if e.1 = k then some e.2 else acc) none

/-- `NewCertPool` from `certificates.go`: insert each root under its
subject. -/
def NewCertPool (rootCerts : List Certificate) : CertPool :=
  rootCerts.map fun c => (c.subject, c)

/-- `CertPool.Validate` from `certificates.go`: look up the issuer by
subject (failing `unknownIssuer` when absent — a nil entry, impossible via
`NewCertPool`, folds into the same branch), validate the issuer certificate
against its own embedded public key, wrapping a failure as
`issuerInvalid`, then validate the given certificate against the issuer's
public key. -/
def CertPool.Validate (pool : CertPool) (now : Int) (verify : VerifyFn)
    (cert : Certificate) : Option (Except CertError Unit) :=
  match mapLookup pool cert.issuer with
  | none => some (.error .unknownIssuer)
  | some issuerCert =>
    match validateCertificate now verify issuerCert (issuerCert.pubKey.getD []) with
    | none => none
    | some (.error e) => some (.error (.issuerInvalid e))
    | some (.ok _) => validateCertificate now verify cert (issuerCert.pubKey.getD [])

/-- The `issuerMap` of `ValidateBundle`: each bundle certificate keyed by
its issuer, in bundle order (later insertions win). -/
def issuerMap (certBundle : List Certificate) : List (List Nat × Certificate) :=
  certBundle.map fun c => (c.issuer, c)

/-- The `subjectMap` of `ValidateBundle`: each bundle certificate keyed by
its subject, in bundle order (later insertions win). -/
def subjectMap (certBundle : List Certificate) : List (List Nat × Certificate) :=
  certBundle.map fun c => (c.subject, c)

/-- The classification loop of `ValidateBundle`: the certificates whose
subject is some bundle certificate's issuer, kept in bundle order. -/
def intermediateCerts (certBundle : List Certificate) : List Certificate :=
  certBundle.filter fun c => (mapLookup (issuerMap certBundle) c.subject).isSome

/-- The `clientCert` assignment of the classification loop: the last bundle
certificate whose subject is nobody's issuer (`nil` — `none` — when every
certificate's subject is some bundle certificate's issuer). -/
def findClient (certBundle : List Certificate) : Option Certificate :=
  certBundle.foldl
    (fun acc c =>
      if (mapLookup (issuerMap certBundle) c.subject).isSome then acc else some c)
    none

/-- The intermediate-chain loop of `ValidateBundle`: validate every
intermediate whose issuer is in `sm` against that issuer's key (any failure
becomes `brokenChain`), and record the last one whose issuer is not in `sm`
as the chain top. Returns the recorded chain top on success. -/
def walkIntermediates (now : Int) (verify : VerifyFn)
    (sm : List (List Nat × Certificate)) :
    List Certificate → Option Certificate → Option (Except CertError (Option Certificate))
  | [], top => some (.ok top)
  | c :: rest, top =>
    match mapLookup sm c.issuer with
    | some issuerCert =>
      match validateCertificate now verify c (issuerCert.pubKey.getD []) with
      | none => none
      | some (.error _) => some (.error .brokenChain)
      | some (.ok _) => walkIntermediates now verify sm rest top
    | none => walkIntermediates now verify sm rest (some c)

/-- `CertPool.ValidateBundle` from `certificates.go`: classify the bundle
into intermediates and a leaf (`noLeaf` when every certificate is an
intermediate), validate the leaf against its in-bundle issuer or fall back
to the pool (returning the leaf at once when the pool accepts it, failing
`noIssuerForClient` when it does not), then validate the intermediate
chain, require a chain top (`noTrustAnchor` otherwise), validate the chain
top against the pool, and return the leaf. -/
def CertPool.ValidateBundle (pool : CertPool) (now : Int) (verify : VerifyFn)
    (certBundle : List Certificate) : Option (Except CertError Certificate) :=
  let sm := subjectMap certBundle
  match findClient certBundle with
  | none => some (.error .noLeaf)
  | some clientCert =>
    match mapLookup sm clientCert.issuer with
    | some clientIssuer =>
      match validateCertificate now verify clientCert (clientIssuer.pubKey.getD []) with
      | none => none
      | some (.error e) => some (.error e)
      | some (.ok _) =>
        match walkIntermediates now verify sm (intermediateCerts certBundle) none with
        | none => none
        | some (.error e) => some (.error e)
        | some (.ok none) => some (.error .noTrustAnchor)
        | some (.ok (some chainTopCert)) =>
          match pool.Validate now verify chainTopCert with
          | none => none
          | some (.error e) => some (.error e)
          | some (.ok _) => some (.ok clientCert)
    | none =>
      match pool.Validate now verify clientCert with
      | none => none
      | some (.ok _) => some (.ok clientCert)
      | some (.error e) => some (.error (.noIssuerForClient e))

/-- The byte sequence `validateCertificate` verifies the signature over:
the canonical encoding of a copy of the certificate whose signature field
has been cleared (`none` when the copy panics). -/
def toBeSigned (c : Certificate) : Option (List Nat) :=
  c.copy.map fun cc => encodeCert { cc with signature := none }

/-! ## Concrete sample data

A signature scheme for concrete evaluations: `vfW` accepts exactly the
"signature" `pk ++ msg`, so a valid signature for certificate `c` under key
`pk` is `pk ++ encodeCert c'` with `c'` the signature-cleared copy of `c`.
`vfTrue` accepts everything. -/

def vfTrue : VerifyFn := fun _ _ _ => true

def vfW : VerifyFn := fun pk msg sig => sig == pk ++ msg

/-- A certificate with absent validity (nil `*Validity` pointer). -/
def certNoValidity : Certificate :=
  ⟨1, [], none, [], none, none, none⟩

/-- The same certificate with validity present and both bounds zero. -/
def certZeroValidity : Certificate :=
  { certNoValidity with validity := some ⟨some 0, some 0⟩ }

/-- Root certificate body: self-signed subject `"r"` (`[114]`), key `[1]`,
unconstrained validity. -/
def certRbase : Certificate :=
  ⟨1, [114], some ⟨some 0, some 0⟩, [114], some [1], some [], none⟩

/-- The root, carrying a `vfW`-valid self-signature under its own key. -/
def certR : Certificate :=
  { certRbase with signature := some ([1] ++ encodeCert certRbase) }

/-- Intermediate body: subject `"i"` (`[105]`), issued by `"r"`, key `[2]`. -/
def certIbase : Certificate :=
  ⟨2, [114], some ⟨some 0, some 0⟩, [105], some [2], some [], none⟩

/-- The intermediate, signed by the root's key `[1]`. -/
def certI : Certificate :=
  { certIbase with signature := some ([1] ++ encodeCert certIbase) }

/-- Leaf body: subject `"l"` (`[108]`), issued by `"i"`, key `[3]`. -/
def certLbase : Certificate :=
  ⟨3, [105], some ⟨some 0, some 0⟩, [108], some [3], some [], none⟩

/-- The leaf, signed by the intermediate's key `[2]`. -/
def certL : Certificate :=
  { certLbase with signature := some ([2] ++ encodeCert certLbase) }

/-- A directly-trusted leaf: subject `"m"` (`[109]`), issued by `"r"`
itself, key `[4]`, signed by the root's key `[1]`. -/
def certDbase : Certificate :=
  ⟨4, [114], some ⟨some 0, some 0⟩, [109], some [4], some [], none⟩

def certD : Certificate :=
  { certDbase with signature := some ([1] ++ encodeCert certDbase) }

/-- A round-trip sample exercising every field shape: negative timestamp,
nil extension value, maximal `uint64` OID. -/
def certRT : Certificate :=
  ⟨42, [97], some ⟨some 100, some (-7)⟩, [98, 99], some [1, 2],
    some [⟨5, true, some [3]⟩, ⟨2 ^ 64 - 1, false, none⟩], some [9, 9]⟩

/-! ## Round-trip lemmas for the codec -/

theorem readBytesBE_toBytesBE (k : Nat) :
    ∀ (acc n : Nat) (rest : List Nat), n < 2 ^ (8 * k) →
      readBytesBE acc k (toBytesBE k n ++ rest) = some (acc * 2 ^ (8 * k) + n, rest) := by
  induction k with
  | zero =>
    intro acc n rest h
    simp only [toBytesBE, List.nil_append, readBytesBE]
    have : n = 0 := by simpa using h
    simp [this]
  | succ k ih =>
    intro acc n rest h
    have hP : 0 < 2 ^ (8 * k) := Nat.two_pow_pos _
    have hpow : 2 ^ (8 * (k + 1)) = 2 ^ (8 * k) * 256 := by
      rw [show 8 * (k + 1) = 8 * k + 8 by ring, pow_add]; norm_num
    have hdiv : n / 2 ^ (8 * k) < 256 := Nat.div_lt_of_lt_mul (by omega)
    simp only [toBytesBE, Nat.mod_eq_of_lt hdiv, List.cons_append, readBytesBE,
      List.append_eq]
    rw [ih _ _ _ (Nat.mod_lt _ hP)]
    have key : 2 ^ (8 * k) * (n / 2 ^ (8 * k)) + n % 2 ^ (8 * k) = n := Nat.div_add_mod n _
    have harith : (acc * 256 + n / 2 ^ (8 * k)) * 2 ^ (8 * k) + n % 2 ^ (8 * k)
        = acc * 2 ^ (8 * (k + 1)) + n := by
      calc (acc * 256 + n / 2 ^ (8 * k)) * 2 ^ (8 * k) + n % 2 ^ (8 * k)
          = acc * (2 ^ (8 * k) * 256)
            + (2 ^ (8 * k) * (n / 2 ^ (8 * k)) + n % 2 ^ (8 * k)) := by ring
        _ = acc * 2 ^ (8 * (k + 1)) + n := by rw [key, hpow]
    rw [harith]

theorem decodeHead_encodeHead (m n : Nat) (rest : List Nat) (hm : m < 8)
    (hn : n < 2 ^ 64) : decodeHead (encodeHead m n ++ rest) = some (m, n, rest) := by
  unfold encodeHead
  split_ifs with h1 h2 h3 h4
  · have e1 : (32 * m + n) / 32 = m := by omega
    have e2 : (32 * m + n) % 32 = n := by omega
    simp [decodeHead, e1, e2, h1]
  · have e1 : (32 * m + 24) / 32 = m := by omega
    have e2 : (32 * m + 24) % 32 = 24 := by omega
    have hr := readBytesBE_toBytesBE 1 0 n rest (by simpa using h2)
    simp [decodeHead, e1, e2, hr]
  · have e1 : (32 * m + 25) / 32 = m := by omega
    have e2 : (32 * m + 25) % 32 = 25 := by omega
    have hr := readBytesBE_toBytesBE 2 0 n rest (by simpa using h3)
    simp [decodeHead, e1, e2, hr]
  · have e1 : (32 * m + 26) / 32 = m := by omega
    have e2 : (32 * m + 26) % 32 = 26 := by omega
    have hr := readBytesBE_toBytesBE 4 0 n rest (by simpa using h4)
    simp [decodeHead, e1, e2, hr]
  · have e1 : (32 * m + 27) / 32 = m := by omega
    have e2 : (32 * m + 27) % 32 = 27 := by omega
    have hr := readBytesBE_toBytesBE 8 0 n rest (by simpa using hn)
    simp [decodeHead, e1, e2, hr]

/-- The first byte of a CBOR head determines the major type. -/
theorem encodeHead_exists_cons (m n : Nat) (hm : m < 8) :
    ∃ b t, encodeHead m n = b :: t ∧ b / 32 = m := by
  unfold encodeHead
  split_ifs with h1 h2 h3 h4
  · exact ⟨32 * m + n, [], rfl, by omega⟩
  · exact ⟨32 * m + 24, _, rfl, by omega⟩
  · exact ⟨32 * m + 25, _, rfl, by omega⟩
  · exact ⟨32 * m + 26, _, rfl, by omega⟩
  · exact ⟨32 * m + 27, _, rfl, by omega⟩

theorem expectHead_encodeHead (m k : Nat) (rest : List Nat) (hm : m < 8)
    (hk : k < 2 ^ 64) : expectHead m k (encodeHead m k ++ rest) = some rest := by
  rw [expectHead, decodeHead_encodeHead m k rest hm hk]
  simp

theorem decodeUInt_encodeHead (n : Nat) (rest : List Nat) (hn : n < 2 ^ 64) :
    decodeUInt (encodeHead 0 n ++ rest) = some (n, rest) := by
  simp [decodeUInt, decodeHead_encodeHead 0 n rest (by norm_num) hn]

theorem decodeInt_encodeInt (i : Int) (rest : List Nat) (h1 : -(2 ^ 63) ≤ i)
    (h2 : i < 2 ^ 63) : decodeInt (encodeInt i ++ rest) = some (i, rest) := by
  unfold encodeInt
  split_ifs with h
  · rw [decodeInt, decodeHead_encodeHead 0 i.toNat rest (by norm_num) (by omega)]
    simp [Int.toNat_of_nonneg h]
  · rw [decodeInt, decodeHead_encodeHead 1 (-1 - i).toNat rest (by norm_num) (by omega)]
    have : -1 - ((-1 - i).toNat : Int) = i := by omega
    simp only [this]

theorem decodeText_encodeText (s rest : List Nat) (hs : s.length < 2 ^ 64) :
    decodeText (encodeText s ++ rest) = some (s, rest) := by
  rw [encodeText, List.append_assoc, decodeText,
    decodeHead_encodeHead 3 s.length _ (by norm_num) hs]
  simp [List.take_left, List.drop_left]

theorem decodeBytesStr_enc (bs rest : List Nat) (hs : bs.length < 2 ^ 64) :
    decodeBytesStr (encodeHead 2 bs.length ++ (bs ++ rest)) = some (bs, rest) := by
  rw [decodeBytesStr, decodeHead_encodeHead 2 bs.length _ (by norm_num) hs]
  simp [List.take_left, List.drop_left]

theorem decodeOptBytes_encodeOptBytes (v : Option (List Nat)) (rest : List Nat)
    (h : (v.getD []).length < 2 ^ 64) :
    decodeOptBytes (encodeOptBytes v ++ rest) = some (v, rest) := by
  match v with
  | none => simp [encodeOptBytes, decodeOptBytes]
  | some bs =>
    obtain ⟨b, t, he, hb⟩ := encodeHead_exists_cons 2 bs.length (by norm_num)
    have hbne : ¬ b = 246 := by omega
    rw [encodeOptBytes, List.append_assoc, he, List.cons_append, decodeOptBytes,
      if_neg hbne, ← List.cons_append, ← he]
    rw [decodeBytesStr_enc bs rest (by simpa using h)]
    rfl

theorem encodeInt_exists_cons (i : Int) :
    ∃ b t, encodeInt i = b :: t ∧ b / 32 ≤ 1 := by
  unfold encodeInt
  split_ifs with h
  · obtain ⟨b, t, he, hb⟩ := encodeHead_exists_cons 0 i.toNat (by norm_num)
    exact ⟨b, t, he, by omega⟩
  · obtain ⟨b, t, he, hb⟩ := encodeHead_exists_cons 1 (-1 - i).toNat (by norm_num)
    exact ⟨b, t, he, by omega⟩

theorem decodeOptTime_encodeOptTime (v : Option Int) (rest : List Nat)
    (h : timeWF v = true) :
    decodeOptTime (encodeOptTime v ++ rest) = some (v, rest) := by
  match v with
  | none => simp [encodeOptTime, decodeOptTime]
  | some i =>
    simp only [timeWF, Bool.and_eq_true, decide_eq_true_eq] at h
    obtain ⟨b, t, he, hb⟩ := encodeInt_exists_cons i
    have hbne : ¬ b = 246 := by omega
    rw [encodeOptTime, he, List.cons_append, decodeOptTime, if_neg hbne,
      ← List.cons_append, ← he]
    rw [decodeInt_encodeInt i rest h.1 h.2]
    rfl

theorem decodeValidity_encodeValidity (v : Validity) (rest : List Nat)
    (h1 : timeWF v.notBefore = true) (h2 : timeWF v.notAfter = true) :
    decodeValidity (encodeValidity v ++ rest) = some (v, rest) := by
  obtain ⟨nb, na⟩ := v
  rw [encodeValidity]
  simp only [List.append_assoc]
  rw [decodeValidity, expectHead_encodeHead 4 2 _ (by norm_num) (by norm_num)]
  simp only [Option.bind_eq_bind, Option.some_bind]
  rw [decodeOptTime_encodeOptTime nb _ h1]
  simp only [Option.some_bind]
  rw [decodeOptTime_encodeOptTime na _ h2]
  simp only [Option.some_bind]

theorem decodeOptValidity_enc (v : Option Validity) (rest : List Nat)
    (h : (match v with
          | none => true
          | some v => timeWF v.notBefore && timeWF v.notAfter) = true) :
    decodeOptValidity (encodeOptValidity v ++ rest) = some (v, rest) := by
  match v with
  | none => simp [encodeOptValidity, decodeOptValidity]
  | some v =>
    simp only [Bool.and_eq_true] at h
    have hc : ∃ b t, encodeValidity v = b :: t ∧ b / 32 = 4 := by
      obtain ⟨b, t, he, hb⟩ := encodeHead_exists_cons 4 2 (by norm_num)
      exact ⟨b, t ++ encodeOptTime v.notBefore ++ encodeOptTime v.notAfter, by
        rw [encodeValidity, he]; simp, hb⟩
    obtain ⟨b, t, he, hb⟩ := hc
    have hbne : ¬ b = 246 := by omega
    rw [encodeOptValidity, he, List.cons_append, decodeOptValidity, if_neg hbne,
      ← List.cons_append, ← he]
    rw [decodeValidity_encodeValidity v rest h.1 h.2]
    rfl

theorem decodeBool_encodeBool (b : Bool) (rest : List Nat) :
    decodeBool (encodeBool b ++ rest) = some (b, rest) := by
  cases b <;> simp [encodeBool, decodeBool]

theorem decodeExtension_encodeExtension (e : Extension) (rest : List Nat)
    (h : extWF e = true) :
    decodeExtension (encodeExtension e ++ rest) = some (e, rest) := by
  obtain ⟨oid, crit, val⟩ := e
  simp only [extWF, Bool.and_eq_true, decide_eq_true_eq] at h
  rw [encodeExtension]
  simp only [List.append_assoc]
  rw [decodeExtension, expectHead_encodeHead 4 3 _ (by norm_num) (by norm_num)]
  simp only [Option.bind_eq_bind, Option.some_bind]
  rw [decodeUInt_encodeHead oid _ h.1]
  simp only [Option.some_bind]
  rw [decodeBool_encodeBool crit]
  simp only [Option.some_bind]
  rw [decodeOptBytes_encodeOptBytes val _ h.2]
  simp only [Option.some_bind]

theorem decodeExtList_enc (es : List Extension) :
    ∀ rest : List Nat, es.all extWF = true →
      decodeExtList es.length (es.flatMap encodeExtension ++ rest) = some (es, rest) := by
  induction es with
  | nil => intro rest _; simp [decodeExtList]
  | cons e es ih =>
    intro rest h
    simp only [List.all_cons, Bool.and_eq_true] at h
    simp only [List.flatMap_cons, List.length_cons, List.append_assoc]
    rw [decodeExtList, decodeExtension_encodeExtension e _ h.1]
    simp only [Option.bind_eq_bind, Option.some_bind]
    rw [ih rest h.2]
    simp only [Option.some_bind]

theorem decodeOptExtensions_enc (v : Option (List Extension)) (rest : List Nat)
    (hlen : (v.getD []).length < 2 ^ 64) (hall : (v.getD []).all extWF = true) :
    decodeOptExtensions (encodeOptExtensions v ++ rest) = some (v, rest) := by
  match v with
  | none => simp [encodeOptExtensions, decodeOptExtensions]
  | some es =>
    obtain ⟨b, t, he, hb⟩ := encodeHead_exists_cons 4 es.length (by norm_num)
    have hbne : ¬ b = 246 := by omega
    rw [encodeOptExtensions, List.append_assoc, he, List.cons_append,
      decodeOptExtensions, if_neg hbne, ← List.cons_append, ← he,
      decodeHead_encodeHead 4 es.length _ (by norm_num) (by simpa using hlen)]
    simp [decodeExtList_enc es rest (by simpa using hall)]

theorem decodeCert_encodeCert (c : Certificate) (rest : List Nat)
    (h : certWF c = true) : decodeCert (encodeCert c ++ rest) = some (c, rest) := by
  obtain ⟨serial, issuer, validity, subject, pk, exts, sig⟩ := c
  simp only [certWF, Bool.and_eq_true, decide_eq_true_eq] at h
  obtain ⟨⟨⟨⟨⟨⟨⟨h1, h2⟩, h3⟩, h4⟩, h5⟩, h6⟩, h7⟩, h8⟩ := h
  rw [encodeCert]
  simp only [List.append_assoc]
  rw [decodeCert, expectHead_encodeHead 4 7 _ (by norm_num) (by norm_num)]
  simp only [Option.bind_eq_bind, Option.some_bind]
  rw [decodeUInt_encodeHead serial _ h1]
  simp only [Option.some_bind]
  rw [decodeText_encodeText issuer _ h2]
  simp only [Option.some_bind]
  rw [decodeOptValidity_enc validity _ h3]
  simp only [Option.some_bind]
  rw [decodeText_encodeText subject _ h4]
  simp only [Option.some_bind]
  rw [decodeOptBytes_encodeOptBytes pk _ h5]
  simp only [Option.some_bind]
  rw [decodeOptExtensions_enc exts _ h6 h7]
  simp only [Option.some_bind]
  rw [decodeOptBytes_encodeOptBytes sig _ h8]
  simp only [Option.some_bind]

/-! ## Structure lemmas for the validation engine -/

/-- `validateCertificate` in closed form when the validity pointer is
present: the two time checks in order, then signature verification over
`toBeSigned` with the recorded signature. -/
theorem validateCertificate_spec (now : Int) (vf : VerifyFn) (cert : Certificate)
    (pk : List Nat) (v : Validity) (hv : cert.validity = some v) :
    validateCertificate now vf cert pk = some (
      if ¬ timeIsZero v.notBefore ∧ now < stdTime (v.notBefore.getD 0) then
        Except.error CertError.notYetValid
      else if ¬ timeIsZero v.notAfter ∧ stdTime (v.notAfter.getD 0) < now then
        Except.error CertError.expired
      else if ¬ vf pk ((toBeSigned cert).getD []) (cert.signature.getD []) then
        Except.error CertError.badSignature
      else Except.ok ()) := by
  unfold validateCertificate validateBody toBeSigned Certificate.copy
  rw [hv]
  simp

/-- The body of `validateCertificate` can only succeed or fail with one of
its three own errors. -/
theorem validateBody_shape (now : Int) (vf : VerifyFn) (cert : Certificate)
    (pk : List Nat) :
    validateBody now vf cert pk = .ok () ∨
    validateBody now vf cert pk = .error .notYetValid ∨
    validateBody now vf cert pk = .error .expired ∨
    validateBody now vf cert pk = .error .badSignature := by
  simp only [validateBody]
  split_ifs <;> simp

/-- Any non-panicking result of `validateCertificate` is `ok` or one of its
three own errors. -/
theorem validateCertificate_shape (now : Int) (vf : VerifyFn) (cert : Certificate)
    (pk : List Nat) (r : Except CertError Unit)
    (h : validateCertificate now vf cert pk = some r) :
    r = .ok () ∨ r = .error .notYetValid ∨ r = .error .expired ∨
    r = .error .badSignature := by
  unfold validateCertificate at h
  cases hc : cert.copy with
  | none => rw [hc] at h; cases h
  | some cc =>
    rw [hc] at h
    injection h with hr
    rw [← hr]
    exact validateBody_shape now vf cc pk

/-- Any error of `CertPool.Validate` is `unknownIssuer`, a wrapped
`issuerInvalid`, or one of the single-certificate errors. -/
theorem poolValidate_error_shape (pool : CertPool) (now : Int) (vf : VerifyFn)
    (cert : Certificate) (e : CertError)
    (h : CertPool.Validate pool now vf cert = some (.error e)) :
    e = .unknownIssuer ∨ (∃ e', e = .issuerInvalid e') ∨ e = .notYetValid ∨
    e = .expired ∨ e = .badSignature := by
  unfold CertPool.Validate at h
  cases hl : mapLookup pool cert.issuer with
  | none =>
    rw [hl] at h
    injection h with h'
    injection h' with h''
    exact Or.inl h''.symm
  | some ic =>
    rw [hl] at h
    simp only [] at h
    cases hv : validateCertificate now vf ic (ic.pubKey.getD []) with
    | none => rw [hv] at h; cases h
    | some r =>
      rw [hv] at h
      cases r with
      | error e' =>
        simp only at h
        injection h with h'
        injection h' with h''
        exact Or.inr (Or.inl ⟨e', h''.symm⟩)
      | ok u =>
        simp only at h
        rcases validateCertificate_shape now vf cert (ic.pubKey.getD []) _ h with
          h' | h' | h' | h'
        · cases h'
        · exact Or.inr (Or.inr (Or.inl (Except.error.inj h')))
        · exact Or.inr (Or.inr (Or.inr (Or.inl (Except.error.inj h'))))
        · exact Or.inr (Or.inr (Or.inr (Or.inr (Except.error.inj h'))))

/-- The intermediate-chain walk fails only with `brokenChain`. -/
theorem walkIntermediates_error_shape (now : Int) (vf : VerifyFn)
    (sm : List (List Nat × Certificate)) (l : List Certificate) :
    ∀ (top : Option Certificate) (e : CertError),
      walkIntermediates now vf sm l top = some (.error e) → e = .brokenChain := by
  induction l with
  | nil => intro top e h; simp [walkIntermediates] at h
  | cons c rest ih =>
    intro top e h
    rw [walkIntermediates] at h
    cases hl : mapLookup sm c.issuer with
    | some ic =>
      rw [hl] at h
      simp only [] at h
      cases hv : validateCertificate now vf c (ic.pubKey.getD []) with
      | none => rw [hv] at h; cases h
      | some r =>
        rw [hv] at h
        cases r with
        | error e' =>
          simp only at h
          injection h with h'
          injection h' with h''
          exact h''.symm
        | ok _ => exact ih top e h
    | none =>
      rw [hl] at h
      exact ih _ _ h

/-- Go-map lookup over the insertion sequence succeeds exactly for the
keys present in the sequence. -/
theorem mapLookup_foldl_isSome (k : List Nat) (m : List (List Nat × Certificate)) :
    ∀ acc : Option Certificate,
      (m.foldl (fun acc e => if e.1 = k then some e.2 else acc) acc).isSome = true ↔
        acc.isSome = true ∨ ∃ e ∈ m, e.1 = k := by
  induction m with
  | nil => intro acc; simp
  | cons e m ih =>
    intro acc
    rw [List.foldl_cons, ih]
    by_cases he : e.1 = k <;> simp [he, or_assoc]

theorem mapLookup_isSome_iff (m : List (List Nat × Certificate)) (k : List Nat) :
    (mapLookup m k).isSome = true ↔ ∃ e ∈ m, e.1 = k := by
  rw [mapLookup, mapLookup_foldl_isSome]
  simp

/-- The classification fold finds no leaf exactly when every bundle
certificate's subject is some bundle certificate's issuer. -/
theorem findClient_foldl_eq_none (p : Certificate → Bool) (l : List Certificate) :
    ∀ acc : Option Certificate,
      (l.foldl (fun acc c => if p c then acc else some c) acc) = none ↔
        acc = none ∧ ∀ c ∈ l, p c = true := by
  induction l with
  | nil => intro acc; simp
  | cons c l ih =>
    intro acc
    rw [List.foldl_cons, ih]
    by_cases hc : p c = true <;> simp [hc]

theorem findClient_eq_none_iff (bundle : List Certificate) :
    findClient bundle = none ↔
      ∀ c ∈ bundle, (mapLookup (issuerMap bundle) c.subject).isSome = true := by
  rw [findClient, findClient_foldl_eq_none]
  simp

/-! ## The claims -/

/-- **C2.** For every valid `Certificate` value `c`, decoding the bytes
produced by encoding `c` yields a certificate equal to `c` field-for-field:
`Parse` is the exact inverse of `Serialize`/`Bytes` on all values
producible by the encoder, covering the serial number, issuer, optional
validity, subject, public key, extension sequence in order, and
signature. -/
theorem parse_bytes_roundtrip (c : Certificate) (h : certWF c = true) :
    Parse (Certificate.bytes c) = some c := by
  rw [Parse, Certificate.bytes, ← List.append_nil (encodeCert c),
    decodeCert_encodeCert c [] h]
  rfl

theorem parse_bytes_roundtrip_witness :
    certWF certRT = true ∧ Parse (Certificate.bytes certRT) = some certRT :=
  ⟨by decide, parse_bytes_roundtrip certRT (by decide)⟩

/-- **C5.** With validity present: a non-zero `notBefore` later than the
current time fails `notYetValid` (regardless of the `notAfter` bound and of
the signature, showing this check runs first), and a non-zero `notAfter`
earlier than the current time fails `expired` once the `notBefore` check
passes (again regardless of the signature). -/
theorem validateCertificate_time_window :
    (∀ (now : Int) (vf : VerifyFn) (cert : Certificate) (pk : List Nat)
        (v : Validity) (nb : Int), cert.validity = some v → v.notBefore = some nb →
        nb ≠ 0 → now < stdTime nb →
        validateCertificate now vf cert pk = some (.error .notYetValid))
    ∧ (∀ (now : Int) (vf : VerifyFn) (cert : Certificate) (pk : List Nat)
        (v : Validity) (na : Int), cert.validity = some v → v.notAfter = some na →
        na ≠ 0 → stdTime na < now →
        ¬(timeIsZero v.notBefore = false ∧ now < stdTime (v.notBefore.getD 0)) →
        validateCertificate now vf cert pk = some (.error .expired)) := by
  constructor
  · intro now vf cert pk v nb hv hnb hz hlt
    rw [validateCertificate_spec now vf cert pk v hv]
    have hcond : ¬ timeIsZero v.notBefore = true ∧ now < stdTime (v.notBefore.getD 0) := by
      rw [hnb]
      exact ⟨by simp [timeIsZero, hz], by simpa using hlt⟩
    rw [if_pos hcond]
  · intro now vf cert pk v na hv hna hz hgt hpass
    rw [validateCertificate_spec now vf cert pk v hv]
    have hcond1 : ¬(¬ timeIsZero v.notBefore = true ∧ now < stdTime (v.notBefore.getD 0)) :=
      fun hc => hpass ⟨by simpa using hc.1, hc.2⟩
    have hcond2 : ¬ timeIsZero v.notAfter = true ∧ stdTime (v.notAfter.getD 0) < now := by
      rw [hna]
      exact ⟨by simp [timeIsZero, hz], by simpa using hgt⟩
    rw [if_neg hcond1, if_pos hcond2]

theorem validateCertificate_time_window_witness :
    validateCertificate 0 vfTrue certRT [] = some (Except.error CertError.notYetValid) :=
  validateCertificate_time_window.1 0 vfTrue certRT [] ⟨some 100, some (-7)⟩ 100
    rfl rfl (by decide) (by decide)

/-- **C6.** The claim says a certificate with absent validity passes the
time checks and proceeds to signature verification; on the code,
`Certificate.Copy` dereferences the nil `*Validity` pointer and panics
before any check runs (first two conjuncts). A certificate with validity
present and both bounds zero does behave as the claim says: the time
checks pass and validation proceeds to (here always-succeeding) signature
verification (third conjunct). -/
theorem validateCertificate_absent_validity_panics :
    validateCertificate 0 vfTrue certNoValidity [] = none
    ∧ Certificate.copy certNoValidity = none
    ∧ validateCertificate 0 vfTrue certZeroValidity [] = some (.ok ()) := by
  refine ⟨rfl, rfl, ?_⟩
  rfl

/-- **C9.** In the state-passing embedding, `validateCertificate` leaves
the caller's certificate exactly as it was — the signature is cleared only
on the independent copy — and its result is the pure decision function of
the fixed clock value `now` and its other inputs. -/
theorem validateCertificate_no_mutation (now : Int) (vf : VerifyFn) (pk : List Nat)
    (cert : Certificate) :
    (validateCertificateS now vf pk cert).2 = cert
    ∧ (validateCertificateS now vf pk cert).1 = validateCertificate now vf cert pk := by
  unfold validateCertificateS validateCertificate
  cases h : cert.copy <;> simp

/-- **C10.** `Time.IsZero` is true exactly for a nil pointer or the value
zero, and `validateCertificate` treats a nil bound pointer exactly like a
zero bound: when `IsZero` holds for `notBefore` (resp. `notAfter`), that
bound imposes no time constraint — the corresponding failure is impossible
for every clock value, with the pointer never dereferenced for a
comparison. -/
theorem timeIsZero_nil_bound_spec :
    (∀ t : Option Int, timeIsZero t = true ↔ t = none ∨ t = some 0)
    ∧ (∀ (now : Int) (vf : VerifyFn) (cert : Certificate) (pk : List Nat)
        (v : Validity), cert.validity = some v → timeIsZero v.notBefore = true →
        validateCertificate now vf cert pk ≠ some (.error .notYetValid))
    ∧ (∀ (now : Int) (vf : VerifyFn) (cert : Certificate) (pk : List Nat)
        (v : Validity), cert.validity = some v → timeIsZero v.notAfter = true →
        validateCertificate now vf cert pk ≠ some (.error .expired)) := by
  refine ⟨?_, ?_, ?_⟩
  · intro t
    cases t with
    | none => simp [timeIsZero]
    | some i => simp [timeIsZero]
  · intro now vf cert pk v hv hz heq
    rw [validateCertificate_spec now vf cert pk v hv] at heq
    split_ifs at heq with h1 h2 h3
    · exact h1.1 (by simp [hz])
    · exact absurd heq (by simp)
    · exact absurd heq (by simp)
    · exact absurd heq (by simp)
  · intro now vf cert pk v hv hz heq
    rw [validateCertificate_spec now vf cert pk v hv] at heq
    split_ifs at heq with h1 h2 h3
    · exact absurd heq (by simp)
    · exact h2.1 (by simp [hz])
    · exact absurd heq (by simp)
    · exact absurd heq (by simp)

theorem timeIsZero_nil_bound_spec_witness :
    (timeIsZero none = true ↔ (none : Option Int) = none ∨ (none : Option Int) = some 0)
    ∧ validateCertificate 0 vfTrue certZeroValidity []
        ≠ some (Except.error CertError.notYetValid) :=
  ⟨timeIsZero_nil_bound_spec.1 none,
   timeIsZero_nil_bound_spec.2.1 0 vfTrue certZeroValidity [] ⟨some 0, some 0⟩ rfl rfl⟩

/-- **C1.** Once the time-window checks pass, `validateCertificate` fails
`badSignature` if and only if `verify` rejects the recorded signature of
the certificate over `toBeSigned cert` — the canonical encoding of the
copy of `cert` whose signature field has been cleared — under `pk`; and
the full result is exactly the outcome of that verification. -/
theorem validateCertificate_signature_spec (now : Int) (vf : VerifyFn)
    (cert : Certificate) (pk : List Nat) (v : Validity)
    (hv : cert.validity = some v)
    (hnb : ¬(timeIsZero v.notBefore = false ∧ now < stdTime (v.notBefore.getD 0)))
    (hna : ¬(timeIsZero v.notAfter = false ∧ stdTime (v.notAfter.getD 0) < now)) :
    (validateCertificate now vf cert pk = some (.error .badSignature)
      ↔ vf pk ((toBeSigned cert).getD []) (cert.signature.getD []) = false)
    ∧ validateCertificate now vf cert pk = some (
        if vf pk ((toBeSigned cert).getD []) (cert.signature.getD [])
        then Except.ok () else Except.error CertError.badSignature) := by
  have h1 : ¬(¬ timeIsZero v.notBefore = true ∧ now < stdTime (v.notBefore.getD 0)) :=
    fun hc => hnb ⟨by simpa using hc.1, hc.2⟩
  have h2 : ¬(¬ timeIsZero v.notAfter = true ∧ stdTime (v.notAfter.getD 0) < now) :=
    fun hc => hna ⟨by simpa using hc.1, hc.2⟩
  rw [validateCertificate_spec now vf cert pk v hv, if_neg h1, if_neg h2]
  constructor
  · cases hb : vf pk ((toBeSigned cert).getD []) (cert.signature.getD []) <;> simp [hb]
  · cases hb : vf pk ((toBeSigned cert).getD []) (cert.signature.getD []) <;> simp [hb]

theorem validateCertificate_signature_spec_witness :
    validateCertificate 0 vfW certR [1] = some (Except.ok ()) := by
  have h := (validateCertificate_signature_spec 0 vfW certR [1] ⟨some 0, some 0⟩
    rfl (by decide) (by decide)).2
  rw [h]
  rfl

/-- **C4.** `CertPool.Validate` fails `unknownIssuer` exactly when the
certificate's issuer is not a key of the pool; when the issuer is found,
it first validates the issuer certificate against the issuer's own
embedded public key — a failing trust anchor yields `issuerInvalid` even
though it is in the pool — and only when that succeeds does it validate
the given certificate against the issuer's public key. -/
theorem certPool_validate_spec :
    (∀ (pool : CertPool) (now : Int) (vf : VerifyFn) (cert : Certificate),
        CertPool.Validate pool now vf cert = some (.error .unknownIssuer)
          ↔ mapLookup pool cert.issuer = none)
    ∧ (∀ (pool : CertPool) (now : Int) (vf : VerifyFn) (cert issuerCert : Certificate)
        (e : CertError), mapLookup pool cert.issuer = some issuerCert →
        validateCertificate now vf issuerCert (issuerCert.pubKey.getD []) = some (.error e) →
        CertPool.Validate pool now vf cert = some (.error (.issuerInvalid e)))
    ∧ (∀ (pool : CertPool) (now : Int) (vf : VerifyFn) (cert issuerCert : Certificate),
        mapLookup pool cert.issuer = some issuerCert →
        validateCertificate now vf issuerCert (issuerCert.pubKey.getD []) = some (.ok ()) →
        CertPool.Validate pool now vf cert
          = validateCertificate now vf cert (issuerCert.pubKey.getD [])) := by
  refine ⟨?_, ?_, ?_⟩
  · intro pool now vf cert
    unfold CertPool.Validate
    cases hl : mapLookup pool cert.issuer with
    | none => simp
    | some ic =>
      simp only []
      apply iff_of_false ?_ (by simp)
      intro h
      cases hv : validateCertificate now vf ic (ic.pubKey.getD []) with
      | none => rw [hv] at h; cases h
      | some r =>
        rw [hv] at h
        cases r with
        | error e' => simp at h
        | ok u =>
          simp only [] at h
          rcases validateCertificate_shape now vf cert (ic.pubKey.getD []) _ h with
            h' | h' | h' | h' <;> simp at h'
  · intro pool now vf cert issuerCert e hl hv
    unfold CertPool.Validate
    rw [hl]
    simp only []
    rw [hv]
  · intro pool now vf cert issuerCert hl hv
    unfold CertPool.Validate
    rw [hl]
    simp only []
    rw [hv]

theorem certPool_validate_spec_witness :
    CertPool.Validate [] 0 vfTrue certNoValidity
      = some (Except.error CertError.unknownIssuer) :=
  (certPool_validate_spec.1 [] 0 vfTrue certNoValidity).mpr rfl

/-- **C7.** When the leaf's issuer is not a subject within the bundle,
`ValidateBundle` is exactly the pool fallback on the leaf: a pool success
returns the leaf at once (no intermediate is ever validated), a pool error
`e` becomes `noIssuerForClient e`, and a panic propagates. -/
theorem validateBundle_pool_fallback (pool : CertPool) (now : Int) (vf : VerifyFn)
    (bundle : List Certificate) (L : Certificate)
    (hleaf : findClient bundle = some L)
    (hnoiss : mapLookup (subjectMap bundle) L.issuer = none) :
    CertPool.ValidateBundle pool now vf bundle =
      match pool.Validate now vf L with
      | none => none
      | some (.ok _) => some (.ok L)
      | some (.error e) => some (.error (.noIssuerForClient e)) := by
  unfold CertPool.ValidateBundle
  simp only []
  rw [hleaf]
  simp only []
  rw [hnoiss]

theorem validateBundle_pool_fallback_witness :
    CertPool.ValidateBundle (NewCertPool [certR]) 0 vfW [certD]
      = some (Except.ok certD) := by
  rw [validateBundle_pool_fallback (NewCertPool [certR]) 0 vfW [certD] certD rfl rfl]
  rfl

/-- When the classification loop does find a leaf, no branch of
`ValidateBundle` can produce the `noLeaf` error. -/
theorem validateBundle_ne_noLeaf_of_leaf (pool : CertPool) (now : Int)
    (vf : VerifyFn) (bundle : List Certificate) (L : Certificate)
    (hleaf : findClient bundle = some L) :
    CertPool.ValidateBundle pool now vf bundle ≠ some (.error .noLeaf) := by
  unfold CertPool.ValidateBundle
  simp only []
  rw [hleaf]
  simp only []
  intro h
  cases hsm : mapLookup (subjectMap bundle) L.issuer with
  | some cI =>
    rw [hsm] at h
    simp only [] at h
    cases hv : validateCertificate now vf L (cI.pubKey.getD []) with
    | none => rw [hv] at h; cases h
    | some r =>
      rw [hv] at h
      cases r with
      | error e =>
        simp only [Option.some.injEq, Except.error.injEq] at h
        subst h
        rcases validateCertificate_shape now vf L (cI.pubKey.getD []) _ hv with
          s | s | s | s <;> simp at s
      | ok _ =>
        simp only [] at h
        cases hw : walkIntermediates now vf (subjectMap bundle)
            (intermediateCerts bundle) none with
        | none => rw [hw] at h; cases h
        | some rw' =>
          rw [hw] at h
          cases rw' with
          | error e =>
            simp only [Option.some.injEq, Except.error.injEq] at h
            subst h
            have := walkIntermediates_error_shape now vf (subjectMap bundle)
              (intermediateCerts bundle) none _ hw
            cases this
          | ok topt =>
            cases topt with
            | none => simp at h
            | some top =>
              simp only [] at h
              cases hp : CertPool.Validate pool now vf top with
              | none => rw [hp] at h; cases h
              | some rp =>
                rw [hp] at h
                cases rp with
                | error e =>
                  simp only [Option.some.injEq, Except.error.injEq] at h
                  subst h
                  rcases poolValidate_error_shape pool now vf top _ hp with
                    s | s | s | s | s <;> simp at s
                | ok _ => simp at h
  | none =>
    rw [hsm] at h
    simp only [] at h
    cases hp : CertPool.Validate pool now vf L with
    | none => rw [hp] at h; cases h
    | some rp =>
      rw [hp] at h
      cases rp with
      | error e => simp at h
      | ok _ => simp at h

/-- **C8.** A bundle certificate is classified as an intermediate exactly
when its subject appears as some bundle certificate's issuer, and
`ValidateBundle` fails `noLeaf` exactly when every certificate is so
classified — a decision made before, and independent of, any signature
validation (the equivalence holds for every `verify`). -/
theorem validateBundle_classification :
    (∀ (bundle : List Certificate) (c : Certificate),
        c ∈ intermediateCerts bundle ↔ c ∈ bundle ∧ ∃ d ∈ bundle, d.issuer = c.subject)
    ∧ (∀ (pool : CertPool) (now : Int) (vf : VerifyFn) (bundle : List Certificate),
        CertPool.ValidateBundle pool now vf bundle = some (.error .noLeaf)
          ↔ ∀ c ∈ bundle, ∃ d ∈ bundle, d.issuer = c.subject) := by
  have hkey : ∀ (bundle : List Certificate) (k : List Nat),
      (mapLookup (issuerMap bundle) k).isSome = true ↔ ∃ d ∈ bundle, d.issuer = k := by
    intro bundle k
    rw [mapLookup_isSome_iff]
    constructor
    · rintro ⟨e, he, hek⟩
      simp only [issuerMap, List.mem_map] at he
      obtain ⟨d, hd, hde⟩ := he
      exact ⟨d, hd, by rw [← hde] at hek; exact hek⟩
    · rintro ⟨d, hd, hdk⟩
      exact ⟨(d.issuer, d), by rw [issuerMap]; exact List.mem_map_of_mem _ hd, hdk⟩
  constructor
  · intro bundle c
    rw [intermediateCerts, List.mem_filter]
    exact and_congr_right fun _ => hkey bundle c.subject
  · intro pool now vf bundle
    constructor
    · intro h
      have hfc : findClient bundle = none := by
        cases hf : findClient bundle with
        | none => rfl
        | some L => exact absurd h (validateBundle_ne_noLeaf_of_leaf pool now vf bundle L hf)
      rw [findClient_eq_none_iff] at hfc
      intro c hc
      exact (hkey bundle c.subject).mp (hfc c hc)
    · intro hall
      have hfc : findClient bundle = none := by
        rw [findClient_eq_none_iff]
        intro c hc
        exact (hkey bundle c.subject).mpr (hall c hc)
      unfold CertPool.ValidateBundle
      simp only []
      rw [hfc]

theorem validateBundle_classification_witness :
    CertPool.ValidateBundle [] 0 vfTrue [certR] = some (Except.error CertError.noLeaf) :=
  (validateBundle_classification.2 [] 0 vfTrue [certR]).mpr (by decide)

/-- **C3.** Three-level chain: with root `R` (self-signed, held in the
pool), intermediate `I` (issuer `R.subject`, valid under `R`'s key) and
leaf `L` (issuer `I.subject`, valid under `I`'s key) — the three subjects
distinct — `ValidateBundle` on the bundle `[I, L]` classifies `L` as the
leaf, validates `L` against `I`'s public key, validates the intermediate
`I` (the chain top) against the pool — which validates `R` against itself
and `I` against `R`'s key — and returns `L` with no error. -/
theorem validateBundle_three_level (now : Int) (vf : VerifyFn) (R I L : Certificate)
    (hRI : I.issuer = R.subject) (hIL : L.issuer = I.subject)
    (hRS : R.subject ≠ I.subject) (hRL : R.subject ≠ L.subject)
    (hIS : I.subject ≠ L.subject)
    (hRok : validateCertificate now vf R (R.pubKey.getD []) = some (.ok ()))
    (hIok : validateCertificate now vf I (R.pubKey.getD []) = some (.ok ()))
    (hLok : validateCertificate now vf L (I.pubKey.getD []) = some (.ok ())) :
    CertPool.ValidateBundle (NewCertPool [R]) now vf [I, L] = some (.ok L) := by
  have hRS' : ¬ (I.subject = R.subject) := fun h => hRS h.symm
  have hRL' : ¬ (L.subject = R.subject) := fun h => hRL h.symm
  have hIS' : ¬ (L.subject = I.subject) := fun h => hIS h.symm
  have him_I : mapLookup (issuerMap [I, L]) I.subject = some L := by
    simp [mapLookup, issuerMap, hRI, hRS, hIL]
  have him_L : mapLookup (issuerMap [I, L]) L.subject = none := by
    simp [mapLookup, issuerMap, hRI, hIL, hRL, hIS]
  have hfc : findClient [I, L] = some L := by
    simp [findClient, him_I, him_L]
  have hic : intermediateCerts [I, L] = [I] := by
    simp [intermediateCerts, him_I, him_L]
  have hsm_Liss : mapLookup (subjectMap [I, L]) L.issuer = some I := by
    simp [mapLookup, subjectMap, hIL, hIS']
  have hsm_Iiss : mapLookup (subjectMap [I, L]) I.issuer = none := by
    simp [mapLookup, subjectMap, hRI, hRS', hRL']
  have hpool : mapLookup (NewCertPool [R]) I.issuer = some R := by
    simp [mapLookup, NewCertPool, hRI]
  have hwalk : walkIntermediates now vf (subjectMap [I, L]) [I] none
      = some (.ok (some I)) := by
    simp [walkIntermediates, hsm_Iiss]
  have hPoolI : CertPool.Validate (NewCertPool [R]) now vf I = some (.ok ()) := by
    unfold CertPool.Validate
    rw [hpool]
    simp only []
    rw [hRok]
    simp only []
    exact hIok
  unfold CertPool.ValidateBundle
  simp only []
  rw [hfc]
  simp only []
  rw [hsm_Liss]
  simp only []
  rw [hLok]
  simp only []
  rw [hic, hwalk]
  simp only []
  rw [hPoolI]

theorem validateBundle_three_level_witness :
    CertPool.ValidateBundle (NewCertPool [certR]) 0 vfW [certI, certL]
      = some (Except.ok certL) :=
  validateBundle_three_level 0 vfW certR certI certL rfl rfl
    (by decide) (by decide) (by decide) rfl rfl rfl

end Smolcert
